import Mathlib

/-!
# Verification of the `utilsknowledge` crawler (WebCrawler / WebHtmlExtractor / Html2Text)

Shallow embedding of the crawl engine of the repository: the retrying
fetcher `WebHtmlExtractor.get_request_html` and `get_selenium_html`, the
crawl loop and code-block extraction of `WebCrawler.crawl` /
`WebCrawler.extract_code_blocks`, and the formatting / language-detection
helpers `_preserve_code_formatting` and `_detect_language`.

External capabilities (the HTTP client, the browser automation, the DOM
parser, the `re` regex engine, `html.unescape`) are modelled as parameters:
the embedding records, for every attempt the code would make, the exact
arguments the code hands to the capability, and the environment decides the
outcome of each attempt.
-/

namespace Hub

/-- Python `str.startswith` on our modelled strings. -/
def pyStartsWith (s pre : String) : Bool :=
  pre.toList.isPrefixOf s.toList

/-- Python `in` (substring containment) on our modelled strings. -/
def pyContains (s pat : String) : Bool :=
  (List.range (s.toList.length + 1)).any (fun i => pat.toList.isPrefixOf (s.toList.drop i))

/-- The whitespace class of Python `str.strip` / `str.split()`. -/
def pyIsSpace (c : Char) : Bool :=
  c == ' ' || c == '\t' || c == '\n' || c == '\r' || c == '\x0b' || c == '\x0c'

/-- Worker for `pySplit`: scan the character list, cutting at each
occurrence of the (nonempty) separator; `fuel` only bounds the recursion
and is always sufficient at `length + 1`. -/
def pySplitGo (sep : List Char) : Nat → List Char → List Char → List (List Char)
  | 0, l, acc => [acc.reverse ++ l]
  | _ + 1, [], acc => [acc.reverse]
  | fuel + 1, c :: rest, acc =>
      if sep.isPrefixOf (c :: rest) then
        acc.reverse :: pySplitGo sep fuel (List.drop (sep.length - 1) rest) []
      else
        pySplitGo sep fuel rest (c :: acc)

/-- Python `s.split(sep)` for a nonempty separator. -/
def pySplit (s sep : String) : List String :=
  (pySplitGo sep.toList (s.toList.length + 1) s.toList []).map List.asString

/-- Python `str.lower` (ASCII suffices for the modelled inputs). -/
def pyLower (s : String) : String := (s.toList.map Char.toLower).asString

/-- Python `str.strip()` with no argument. -/
def pyStrip (s : String) : String :=
  (((s.toList.dropWhile pyIsSpace).reverse.dropWhile pyIsSpace).reverse).asString

/-- Python `s.split()[0]` on a string with at least one word; on an
all-whitespace string Python would raise an IndexError, which the
modelled inputs (single class tokens) never trigger — the model returns
the empty string there. -/
def pyFirstWord (s : String) : String :=
  ((s.toList.dropWhile pyIsSpace).takeWhile (fun c => !(pyIsSpace c))).asString

/-- Python `"\n".join(lines)`. -/
def joinNL : List String → String
  | [] => ""
  | [l] => l
  | l :: rest => l ++ "\n" ++ joinNL rest

/-- Simplified model of `urllib.parse.urlsplit`-based
`WebHtmlExtractor.split_host_url`, restricted to URLs that carry an
explicit `scheme://` part (the only shape the modelled scenarios use):
returns `scheme://netloc`. -/
def split_host_url (url : String) : String :=
  if url = "" then ""
  else
    match pySplit url "://" with
    | scheme :: rest :: _ => scheme ++ "://" ++ ((pySplit rest "/").headD "")
    | _ => "://"

/-- HTTP method accepted by `get_request_html` (the Python code asserts
`method in ("get", "post")`). -/
inductive Method where
  | get
  | post
deriving DecidableEq, Repr

/-- Model of the mutable `self.header` dictionary: the `User-Agent` entry
(which the code overwrites in place) and the remaining entries. -/
structure Header where
  userAgent : String
  rest : List (String × String)
deriving DecidableEq, Repr

/-- The `html_dict` result dictionary built by `get_request_html` /
`get_selenium_html`. -/
structure HtmlDict where
  url : String
  host_url : String
  text : Option String
  status : Bool
deriving DecidableEq, Repr

/-- The fields of `WebHtmlExtractor.__init__` that `get_request_html`
reads but never reassigns. -/
structure ExtractorConfig where
  max_retry_times : Nat
  time_sleep : Rat
  time_out : Rat
deriving Repr

/-- The fields of the extractor instance that `get_request_html` mutates
(`self.header = header`, `self.header[UA] = random`, `self.data = data`). -/
structure MutState where
  header : Header
  data : List (String × String)
deriving DecidableEq, Repr

/-- Outcome of one HTTP request, decided by the environment:
a 200 response (with final URL after redirects and a body), a non-200
status code, or a raised `Timeout` / `RequestException`. -/
inductive ReqOutcome where
  | ok (finalUrl body : String)
  | status (code : Nat)
  | exn
deriving DecidableEq, Repr

/-- `ReqOutcome.isOk o` holds exactly on a 200 response. -/
def ReqOutcome.isOk : ReqOutcome → Bool
  | .ok _ _ => true
  | _ => false

/-- One request attempt as handed to the external HTTP capability:
the URL and method, the header and data dictionaries in force at the
moment of the call, the timeout passed to `requests.get`/`requests.post`,
and the `time.sleep` delay executed just before the attempt. -/
structure Attempt where
  url : String
  method : Method
  header : Header
  data : List (String × String)
  time_out : Rat
  sleep_before : Rat
deriving DecidableEq, Repr

/-- Shallow embedding of `WebHtmlExtractor.get_request_html`
(WebHtmlExtractor.py lines 147-210).

* `env n` is the outcome of the `n`-th request the run performs and
  `ua n` the `n`-th random `UserAgent().random` value; `k` is the index
  of the next request.
* `hd` threads the mutable instance fields `self.header` / `self.data`.
* The remaining arguments mirror the Python parameters
  `url, method, time_sleep, retry_times, header, data, time_out`
  (`none` models Python `None`, and also a falsy `{}` for `data`).

Returns the `html_dict` result, the final mutable instance state, and the
list of request attempts performed, in order. The recursion mirrors the
source: a failed attempt recurses with `time_sleep*1.5` and
`retry_times+1` (forwarding only `url` and `method`) while
`retry_times <= self.max_retry_times`. -/
def get_request_html (cfg : ExtractorConfig) (env : Nat → ReqOutcome) (ua : Nat → String)
    (hd : MutState) (k : Nat) (url : String) (method : Method)
    (time_sleep? : Option Rat) (retry_times : Nat)
    (header? : Option Header) (data? : Option (List (String × String)))
    (time_out? : Option Rat) :
    HtmlDict × MutState × List Attempt :=
  -- `if header: self.header = header  else: self.header['User-Agent'] = random`
  let hd1 : MutState :=
    match header? with
    | some h => { hd with header := h }
    | none => { hd with header := { hd.header with userAgent := ua k } }
  -- `if data: self.data = data`
  let hd2 : MutState :=
    match data? with
    | some d => { hd1 with data := d }
    | none => hd1
  let time_out := time_out?.getD cfg.time_out
  let time_sleep := time_sleep?.getD cfg.time_sleep
  -- `time.sleep(time_sleep)` then the request itself
  let att : Attempt :=
    { url := url, method := method, header := hd2.header, data := hd2.data,
      time_out := time_out, sleep_before := time_sleep }
  match env k with
  | .ok finalUrl body =>
      -- `response.status_code == 200`: fill the dict from the response
      ({ url := finalUrl, host_url := split_host_url finalUrl,
         text := some body, status := true }, hd2, [att])
  | _ =>
      -- non-200 status or caught Timeout/RequestException
      if _h : retry_times ≤ cfg.max_retry_times then
        -- `return self.get_request_html(url=url, method=method,
        --    time_sleep=time_sleep*1.5, retry_times=retry_times+1)`
        let r := get_request_html cfg env ua hd2 (k + 1) url method
          (some (time_sleep * (3 / 2))) (retry_times + 1) none none none
        (r.1, r.2.1, att :: r.2.2)
      else
        ({ url := url, host_url := split_host_url url,
           text := none, status := false }, hd2, [att])
termination_by cfg.max_retry_times + 1 - retry_times
decreasing_by omega

/-- The `html_dict` the fetcher builds before attempting a request and
returns unchanged after exhausting all retries. -/
def failDict (url : String) : HtmlDict := ⟨url, split_host_url url, none, false⟩

/-- Specification helper: the attempt trace an all-failing run of
`get_request_html` produces, starting at request index `k` with current
delay `s`, for `n` further attempts: attempt `i` carries the `(k+i)`-th
random user agent on top of the retained header fields `restH`, the
retained data `d`, the instance timeout `tOut`, and delay `s * (3/2)^i`. -/
def attList (url : String) (m : Method) (restH d : List (String × String))
    (tOut : Rat) (ua : Nat → String) : Nat → Rat → Nat → List Attempt
  | _, _, 0 => []
  | k, s, n + 1 =>
      ⟨url, m, ⟨ua k, restH⟩, d, tOut, s⟩ ::
        attList url m restH d tOut ua (k + 1) (s * (3 / 2)) n

/-- The header in force during the first attempt of a call of
`get_request_html`: the caller-supplied one if given, else the instance
header with a freshly randomized user agent. -/
def firstHeader (ua : Nat → String) (hd : MutState) (k : Nat) : Option Header → Header
  | some h => h
  | none => ⟨ua k, hd.header.rest⟩

/-- The delays between consecutive request attempts of a trace: the
`time.sleep` executed before each attempt other than the first (the first
sleep precedes the first attempt and separates no two attempts). -/
def interAttemptDelays (atts : List Attempt) : List Rat :=
  (atts.map (·.sleep_before)).tail

/-! ## `WebHtmlExtractor.get_selenium_html` (lines 212-289) -/

/-- Outcome of one rendered-browser attempt, decided by the environment:
driver creation itself raises a `WebDriverException`, or the
navigate/wait phase raises (`WebDriverException` / `TimeoutException`),
or the page renders. -/
inductive SelOutcome where
  | createFail
  | renderFail
  | ok (finalUrl body : String)
deriving DecidableEq, Repr

/-- Shallow embedding of `WebHtmlExtractor.get_selenium_html`.
`env n` decides the outcome of the `n`-th rendered attempt; `k` is the
index of the next attempt. Returns the `html_dict` result together with
the driver-release log: one entry `(i, q)` per successfully created
driver `i` (the attempt index), where `q` is the number of times
`driver.quit()` runs on it. A `renderFail` that still has retries left
quits once in the `except` cleanup and once more in the `finally` block
(the `finally` runs after the recursive call's value is computed);
every other path with a created driver quits exactly once in `finally`;
a failed driver creation leaves `driver = None`, so `finally` skips it. -/
def get_selenium_html (cfg : ExtractorConfig) (env : Nat → SelOutcome) (k : Nat)
    (url : String) (time_sleep? : Option Rat) (retry_times : Nat) :
    HtmlDict × List (Nat × Nat) :=
  let time_sleep := time_sleep?.getD cfg.time_sleep
  match env k with
  | .ok finalUrl body =>
      (⟨finalUrl, split_host_url finalUrl, some body, true⟩, [(k, 1)])
  | .createFail =>
      if _h : retry_times ≤ cfg.max_retry_times then
        get_selenium_html cfg env (k + 1) url (some (time_sleep * (3 / 2)))
          (retry_times + 1)
      else
        (failDict url, [])
  | .renderFail =>
      if _h : retry_times ≤ cfg.max_retry_times then
        let r := get_selenium_html cfg env (k + 1) url (some (time_sleep * (3 / 2)))
          (retry_times + 1)
        (r.1, (k, 2) :: r.2)
      else
        (failDict url, [(k, 1)])
termination_by cfg.max_retry_times + 1 - retry_times
decreasing_by all_goals omega

/-! ## `WebCrawler.crawl` frontier and link admission (lines 22-183) -/

/-- Python `next_url.split('#')[0]`: the URL up to its first fragment
marker. -/
def stripFragment (u : String) : String := (pySplit u "#").headD ""

/-- Simplified model of `urllib.parse.urljoin(url, href)`, restricted to
the href shapes the modelled scenarios use: an href that already carries
a scheme is absolute and returned unchanged; relative resolution against
the base page is not modelled. -/
def urljoinAbs (base href : String) : String :=
  if pyContains href "://" then href else base ++ href

/-- The link-admission step of `WebCrawler.crawl.process_url`
(lines 96-118): when the current page's depth is below `max_depth`, each
href is skipped if it is a fragment / javascript / mailto target,
resolved to an absolute URL, stripped of its fragment, and admitted with
depth `depth + 1` when it starts with the domain prefix and is not yet
processed. -/
def discoveredLinks (domainPre : String) (processed : List String) (url : String)
    (depth max_depth : Nat) (hrefs : List String) : List (String × Nat) :=
  if depth < max_depth then
    hrefs.filterMap (fun href =>
      if pyStartsWith href "#" || pyStartsWith href "javascript:" ||
          pyStartsWith href "mailto:" then none
      else
        let next_url := stripFragment (urljoinAbs url href)
        if pyStartsWith next_url domainPre && !(processed.contains next_url) then
          some (next_url, depth + 1)
        else none)
  else []

/-- Crawl bookkeeping: the processed-URL set, every `(url, depth)` entry
ever admitted to the work queue (the seed included), and the pending
queue. -/
structure CrawlState where
  processed : List String
  admitted : List (String × Nat)
  queue : List (String × Nat)
deriving DecidableEq, Repr

/-- Sequentialised `process_url` (WebCrawler.py lines 49-129):
skip if already processed, else mark processed; when the fetch succeeds
(`ok url`), admit the discovered in-scope links to the queue. `pages url`
models the hrefs of the page's anchor elements. -/
def process_url (pages : String → List String) (ok : String → Bool)
    (domainPre : String) (max_depth : Nat) (st : CrawlState)
    (url : String) (depth : Nat) : CrawlState :=
  if st.processed.contains url then st
  else
    let processed' := st.processed ++ [url]
    if ok url then
      let links := discoveredLinks domainPre processed' url depth max_depth (pages url)
      { processed := processed', admitted := st.admitted ++ links,
        queue := st.queue ++ links }
    else
      { st with processed := processed' }

/-- The dispatcher loop of `WebCrawler.crawl` (lines 144-166),
sequentialised: pop the next queue entry and process it (the
`url not in processed_urls` re-check lives in `process_url`). `fuel`
bounds the number of dequeues, standing in for the wall-clock bound. -/
def crawlLoop (pages : String → List String) (ok : String → Bool)
    (domainPre : String) (max_depth : Nat) : Nat → CrawlState → CrawlState
  | 0, st => st
  | fuel + 1, st =>
      match st.queue with
      | [] => st
      | (url, depth) :: rest =>
          crawlLoop pages ok domainPre max_depth fuel
            (process_url pages ok domainPre max_depth
              { st with queue := rest } url depth)

/-- `WebCrawler.crawl` (lines 22-183): the seed is enqueued at depth 1,
the domain prefix is `scheme://netloc` of the seed, the seed is processed
first directly, then the loop drains the queue. -/
def crawl (pages : String → List String) (ok : String → Bool)
    (start_url : String) (max_depth : Nat) (fuel : Nat) : CrawlState :=
  let domainPre := split_host_url start_url
  let st0 : CrawlState :=
    { processed := [], admitted := [(start_url, 1)], queue := [(start_url, 1)] }
  crawlLoop pages ok domainPre max_depth fuel
    (process_url pages ok domainPre max_depth st0 start_url 1)

/-! ## `WebCrawler.extract_code_blocks` (lines 185-286) -/

/-- The dedup-and-persist loop of `WebCrawler.extract_code_blocks`:
the input list holds the formatted text of each selected code element
(DOM selection and `_preserve_code_formatting` already applied);
`hashFn` models Python's `hash`; `seen` is the `processed_content` set.
A block shorter than 15 characters after stripping is skipped; a block
whose hash is already in `seen` is skipped; otherwise the block is
persisted (one code file plus one metadata record) and its hash
recorded. Returns the persisted blocks in order. -/
def extract_code_blocks (hashFn : String → Int) :
    List String → List Int → List String
  | [], _ => []
  | t :: rest, seen =>
      if (pyStrip t).length < 15 then extract_code_blocks hashFn rest seen
      else if seen.contains (hashFn t) then extract_code_blocks hashFn rest seen
      else t :: extract_code_blocks hashFn rest (hashFn t :: seen)

/-- Artifacts persisted over a whole crawl run: `extract_code_blocks` is
called once per page (WebCrawler.py line 91) and creates its
`processed_content` set afresh on every call (line 194). -/
def crawlRunArtifacts (hashFn : String → Int) (pagesBlocks : List (List String)) :
    List String :=
  (pagesBlocks.map (fun blocks => extract_code_blocks hashFn blocks [])).flatten

/-! ## The visited-set check-and-insert of `process_url` (lines 49-56) -/

/-- Program counter of one worker running the entry of
`WebCrawler.crawl.process_url` on a fixed URL:
`start` — about to evaluate the unguarded `if url in processed_urls`
(line 51); `passed` — the check saw the URL absent, about to run the
lock-guarded `processed_urls.add(url)` (lines 55-56) and then the body;
`skipped` — returned `None` at the check; `finished` — inserted and
processed the page body. -/
inductive Pc where
  | start
  | passed
  | skipped
  | finished
deriving DecidableEq, Repr, Fintype

/-- One atomic action of a worker, as the source orders them: the
membership test reads the shared set outside the lock; the insertion
(with the body that follows it) holds the lock. `mem` says whether the
URL is in `processed_urls`. -/
def stepW (mem : Bool) : Pc → Pc × Bool
  | .start => if mem then (.skipped, mem) else (.passed, mem)
  | .passed => (.finished, true)
  | pc => (pc, mem)

/-- Interleaved execution of two workers both running `process_url` on
the same URL: each schedule entry picks the worker (true = worker 1)
whose next atomic action runs. State: membership bit, then both program
counters. -/
def raceRun : List Bool → Bool × Pc × Pc → Bool × Pc × Pc
  | [], st => st
  | w :: rest, (mem, p1, p2) =>
      if w then
        let s := stepW mem p1
        raceRun rest (s.2, s.1, p2)
      else
        let s := stepW mem p2
        raceRun rest (s.2, p1, s.1)

/-- Modelled from the spec (§3, §9): the invariant demanded by the spec —
"membership check-and-insert is atomic"; a worker's check and insertion
happen as one step, so a worker at `start` either skips (URL present) or
inserts-and-processes (URL absent) with no interleaving point between. -/
def stepAtomic (mem : Bool) : Pc → Pc × Bool
  | .start => if mem then (.skipped, mem) else (.finished, true)
  | pc => (pc, mem)

/-- Interleaved execution of two workers under the spec's atomic
check-and-insert. -/
def atomicRun : List Bool → Bool × Pc × Pc → Bool × Pc × Pc
  | [], st => st
  | w :: rest, (mem, p1, p2) =>
      if w then
        let s := stepAtomic mem p1
        atomicRun rest (s.2, s.1, p2)
      else
        let s := stepAtomic mem p2
        atomicRun rest (s.2, p1, s.1)

/-- Invariant of the atomic model: a finished worker implies the URL is
recorded, and never are both workers finished. -/
def atomicInv (st : Bool × Pc × Pc) : Bool :=
  (!(st.2.1 == Pc.finished) || st.1) &&
  (!(st.2.2 == Pc.finished) || st.1) &&
  !((st.2.1 == Pc.finished) && (st.2.2 == Pc.finished))

/-! ## `_detect_language` (WebCrawler.py lines 344-409, Html2Text.py
lines 212-277; the two copies are textually identical) -/

/-- The known-language substring table of `_detect_language`, in source
order. -/
def knownLangs : List String :=
  ["python", "javascript", "js", "java", "cpp", "csharp", "ruby", "go",
   "php", "html", "css", "sql", "bash", "shell"]

/-- The known-language loop: the first table entry occurring as a
substring of the lowercased class token. -/
def knownLoop (cls : String) : Option String :=
  knownLangs.find? (fun lang => pyContains (pyLower cls) lang)

/-- The per-class-token checks of `_detect_language`, in source order:
a token starting with `language-` yields `cls.split('-')[1]`;
else a token containing `language-` with a nonempty remainder yields the
first word after it; else the known-language substring loop. -/
def clsCheck (cls : String) : Option String :=
  if pyStartsWith cls "language-" then
    some ((pySplit cls "-").getD 1 "")
  else
    let parts := pySplit cls "language-"
    if pyContains cls "language-" && decide (1 < parts.length) &&
        (parts.getD 1 "" != "") then
      some (pyFirstWord (parts.getD 1 ""))
    else
      knownLoop cls

/-- A code element as `_detect_language` sees it: its own class tokens,
its parent's class tokens (empty when the parent is absent or has no
class attribute — the loop body is skipped either way), and its text
content. -/
structure CodeElem where
  classes : List String
  parentClasses : List String
  text : String
deriving Repr

/-- The `re.search` content patterns of `_detect_language`, one field per
regex in the source, modelled as predicates on the text (the `re` engine
is an external capability). Fields list the source regex. -/
structure ContentPatterns where
  /-- `def\s+\w+\s*\(.*\):` -/
  pyDef : String → Bool
  /-- `import\s+\w+` -/
  pyImport : String → Bool
  /-- `from\s+\w+\s+import` -/
  pyFromImport : String → Bool
  /-- `(const|let|var)\s+\w+\s*=` -/
  jsDecl : String → Bool
  /-- `function\s+\w+\s*\(` -/
  jsFunc : String → Bool
  /-- `=>` -/
  jsArrow : String → Bool
  /-- `<\w+>.*</\w+>` -/
  htmlPair : String → Bool
  /-- `<(div|span|p|a|img)[^>]*>` -/
  htmlOpen : String → Bool
  /-- `[\.\#]\w+\s*\x7b[^\x7d]*\x7d` -/
  cssRule : String → Bool
  /-- `@media` -/
  cssMedia : String → Bool
  /-- `SELECT|INSERT|UPDATE|DELETE|CREATE TABLE` (case-insensitive) -/
  sqlKw : String → Bool
  /-- `(public|private|protected)\s+(static\s+)?\w+\s+\w+\s*\(` -/
  cFamilyDecl : String → Bool
  /-- `System\.out\.println` -/
  javaPrintln : String → Bool
  /-- `Console\.WriteLine` -/
  csharpWriteLine : String → Bool
  /-- `std::` -/
  cppStd : String → Bool
  /-- `^#!.*sh` -/
  shShebang : String → Bool
  /-- `\$\s+` -/
  shDollar : String → Bool

/-- The content-pattern cascade of `_detect_language`, in source order,
with the C-family sub-checks and the final `'text'` fallback. -/
def detectFromContent (P : ContentPatterns) (t : String) : String :=
  if P.pyDef t || P.pyImport t || P.pyFromImport t then "python"
  else if P.jsDecl t || P.jsFunc t || P.jsArrow t then "javascript"
  else if P.htmlPair t || P.htmlOpen t then "html"
  else if P.cssRule t || P.cssMedia t then "css"
  else if P.sqlKw t then "sql"
  else if P.cFamilyDecl t then
    if P.javaPrintln t then "java"
    else if P.csharpWriteLine t then "csharp"
    else if P.cppStd t then "cpp"
    else "java"
  else if P.shShebang t || P.shDollar t then "bash"
  else "text"

/-- Whether any content pattern fires on `t`. -/
def anyPattern (P : ContentPatterns) (t : String) : Bool :=
  P.pyDef t || P.pyImport t || P.pyFromImport t ||
  P.jsDecl t || P.jsFunc t || P.jsArrow t ||
  P.htmlPair t || P.htmlOpen t ||
  P.cssRule t || P.cssMedia t ||
  P.sqlKw t || P.cFamilyDecl t ||
  P.shShebang t || P.shDollar t

/-- Shallow embedding of `_detect_language`: for `el` in
`[element, element.parent]`, scan `el`'s class tokens in order with the
per-token checks; first hit wins; otherwise fall through to the content
cascade on the element's text. -/
def detect_language (P : ContentPatterns) (e : CodeElem) : String :=
  match e.classes.findSome? clsCheck with
  | some l => l
  | none =>
      match e.parentClasses.findSome? clsCheck with
      | some l => l
      | none => detectFromContent P e.text

/-- A pattern structure in which no content regex ever fires. -/
def noPatterns : ContentPatterns :=
  ⟨fun _ => false, fun _ => false, fun _ => false, fun _ => false,
   fun _ => false, fun _ => false, fun _ => false, fun _ => false,
   fun _ => false, fun _ => false, fun _ => false, fun _ => false,
   fun _ => false, fun _ => false, fun _ => false, fun _ => false,
   fun _ => false⟩

/-! ## `_preserve_code_formatting` (WebCrawler.py lines 288-324,
Html2Text.py lines 156-192; the two copies are textually identical) -/

/-- Python `len(line) - len(line.lstrip())`: the leading-whitespace width
of a line. -/
def indentOf (l : String) : Nat := (l.toList.takeWhile pyIsSpace).length

/-- The `min_indent` loop of `_preserve_code_formatting`
(lines 307-312): fold the minimum indentation over the non-blank lines,
`none` standing for the initial `float('inf')`. -/
def min_indent (lines : List String) : Option Nat :=
  lines.foldl
    (fun acc l =>
      if pyStrip l != "" then
        some (match acc with
          | none => indentOf l
          | some m => min m (indentOf l))
      else acc)
    none

/-- The `fixed_lines` loop (lines 315-321): drop `m` leading characters
from every non-blank line; blank lines pass through unchanged. -/
def fixedLines (lines : List String) (m : Nat) : List String :=
  lines.map (fun l => if pyStrip l != "" then l.drop m else l)

/-- The common-indent removal of the `pre` branch of
`_preserve_code_formatting` (lines 304-324), applied to the
entity-decoded content: split on line breaks, and only when more than
one line results, strip the minimal indentation of the non-blank lines
from every non-blank line. -/
def dedentPre (content : String) : String :=
  let lines := pySplit content "\n"
  if 1 < lines.length then
    match min_indent lines with
    | some m => joinNL (fixedLines lines m)
    | none => content
  else content

/-- The `pre` branch of `_preserve_code_formatting`: the element's text
(extracted with line breaks preserved by `get_text('\n', strip=False)` —
an external DOM capability; `raw` is that string) is entity-decoded by
`html.unescape` (external, passed as `unescape`) and then dedented. -/
def preserve_code_formatting (unescape : String → String) (raw : String) : String :=
  dedentPre (unescape raw)

/-! ## Shared lemmas about the fetcher -/

theorem attList_length (url : String) (m : Method) (restH d : List (String × String))
    (tOut : Rat) (ua : Nat → String) :
    ∀ (n k : Nat) (s : Rat), (attList url m restH d tOut ua k s n).length = n := by
  intro n
  induction n with
  | zero => intro k s; rfl
  | succ n ih => intro k s; simp [attList, ih]

theorem attList_get (url : String) (m : Method) (restH d : List (String × String))
    (tOut : Rat) (ua : Nat → String) :
    ∀ (n k : Nat) (s : Rat) (i : Nat) (hi : i < (attList url m restH d tOut ua k s n).length),
    (attList url m restH d tOut ua k s n).get ⟨i, hi⟩ =
      ⟨url, m, ⟨ua (k + i), restH⟩, d, tOut, s * (3 / 2) ^ i⟩ := by
  intro n
  induction n with
  | zero => intro k s i hi; simp [attList] at hi
  | succ n ih =>
      intro k s i hi
      match i with
      | 0 => simp [attList]
      | j + 1 =>
          have hj : j < (attList url m restH d tOut ua (k + 1) (s * (3 / 2)) n).length := by
            simpa [attList, attList_length] using hi
          have := ih (k + 1) (s * (3 / 2)) j hj
          simp only [attList, List.get_cons_succ, this, Attempt.mk.injEq, Header.mk.injEq]
          and_intros <;> first | trivial | (exact congrArg ua (by omega)) | ring

/-- On an environment that fails every request, a call of
`get_request_html` whose retry budget allows `f` further retries (all
optional arguments already resolved to `none`, as the recursive calls
pass them) returns the failure dict and performs the `f + 1` attempts
described by `attList`. -/
theorem get_request_html_allFail (cfg : ExtractorConfig) (env : Nat → ReqOutcome)
    (ua : Nat → String) (url : String) (m : Method)
    (hfail : ∀ n, (env n).isOk = false) :
    ∀ (f rt : Nat), cfg.max_retry_times + 1 - rt = f →
    ∀ (h : Header) (d : List (String × String)) (k : Nat) (s : Rat),
    get_request_html cfg env ua ⟨h, d⟩ k url m (some s) rt none none none =
      (failDict url,
       ⟨⟨ua (k + f), h.rest⟩, d⟩,
       attList url m h.rest d cfg.time_out ua k s (f + 1)) := by
  intro f
  induction f with
  | zero =>
      intro rt hf h d k s
      have hgt : ¬ (rt ≤ cfg.max_retry_times) := by omega
      rw [get_request_html]
      have hk := hfail k
      rcases henv : env k with ⟨u, b⟩ | c | _
      · rw [henv] at hk; simp [ReqOutcome.isOk] at hk
      all_goals simp [henv, hgt, attList, failDict]
  | succ n ih =>
      intro rt hf h d k s
      have hle : rt ≤ cfg.max_retry_times := by omega
      have hk := hfail k
      rw [get_request_html]
      rcases henv : env k with ⟨u, b⟩ | c | _
      · rw [henv] at hk; simp [ReqOutcome.isOk] at hk
      all_goals {
        have hrec := ih (rt + 1) (by omega) ⟨ua k, h.rest⟩ d (k + 1) (s * (3 / 2))
        have e0 : k + 1 + n = k + (n + 1) := by omega
        rw [e0] at hrec
        simp [henv, hle, hrec, attList]
      }

/-- On an all-failing environment, a top-level call of `get_request_html`
(`retry_times = 1`, arbitrary caller-supplied arguments) returns the
failure dict, and its attempt trace is the first attempt — which uses the
caller's header / data / timeout when supplied — followed by
`max_retry_times` retries that forward none of them. -/
theorem get_request_html_run (cfg : ExtractorConfig) (env : Nat → ReqOutcome)
    (ua : Nat → String) (hd : MutState) (k : Nat) (url : String) (m : Method)
    (ts? : Option Rat) (header? : Option Header)
    (data? : Option (List (String × String))) (to? : Option Rat)
    (hfail : ∀ n, (env n).isOk = false) :
    (get_request_html cfg env ua hd k url m ts? 1 header? data? to?).1 = failDict url ∧
    (get_request_html cfg env ua hd k url m ts? 1 header? data? to?).2.2 =
      ⟨url, m, firstHeader ua hd k header?, data?.getD hd.data,
        to?.getD cfg.time_out, ts?.getD cfg.time_sleep⟩ ::
         attList url m (firstHeader ua hd k header?).rest (data?.getD hd.data)
           cfg.time_out ua (k + 1) (ts?.getD cfg.time_sleep * (3 / 2))
           cfg.max_retry_times := by
  constructor <;> {
  rw [get_request_html.eq_def]
  have hk := hfail k
  rcases henv : env k with ⟨u, b⟩ | c | _
  · rw [henv] at hk; simp [ReqOutcome.isOk] at hk
  all_goals {
    by_cases hmax : 1 ≤ cfg.max_retry_times
    · obtain ⟨n, hn⟩ : ∃ n, cfg.max_retry_times = n + 1 :=
        ⟨cfg.max_retry_times - 1, by omega⟩
      have hrec := get_request_html_allFail cfg env ua url m hfail n 2 (by omega)
        (firstHeader ua hd k header?) (data?.getD hd.data) (k + 1)
        (ts?.getD cfg.time_sleep * (3 / 2))
      have e0 : k + 1 + n = k + (n + 1) := by omega
      rw [e0] at hrec
      rcases header? with _ | H <;> rcases data? with _ | D <;>
        simp [henv, hmax, hn, firstHeader, attList] at hrec ⊢ <;>
        · rw [hrec]
    · have hmax0 : cfg.max_retry_times = 0 := by omega
      rcases header? with _ | H <;> rcases data? with _ | D <;>
        simp [henv, hmax, hmax0, firstHeader, attList, failDict]
  }
  }

/-! ## Claims about the fetcher (C2, C5, C6, C10) -/

/-- Claim C2, counterexample: with `max_retry_times = 3` and every request
answering HTTP 500, `get_request_html` performs 4 request attempts, not
the 3 the claim states (the recursion retries while
`retry_times <= max_retry_times`, entering attempts at retry counters
1, 2, 3 and 4). -/
theorem attempts_exceed_configured_maximum :
    ((get_request_html ⟨3, 1, 20⟩ (fun _ => .status 500) (fun n => toString n)
        ⟨⟨"ua0", []⟩, []⟩ 0 "https://example.com/" .get none 1 none none none).2.2).length
      = 4 ∧ (4 : Nat) ≠ 3 := by
  constructor
  · simp [get_request_html]
  · decide

/-- Claim C2, amended: on a URL whose fetch fails on every try, a
top-level `get_request_html` call performs exactly
`max_retry_times + 1` request attempts — one initial attempt plus
`max_retry_times` retries — before returning the failure result. -/
theorem attempt_count_eq_retry_bound_succ (cfg : ExtractorConfig)
    (env : Nat → ReqOutcome) (ua : Nat → String) (hd : MutState) (k : Nat)
    (url : String) (m : Method) (ts? : Option Rat) (header? : Option Header)
    (data? : Option (List (String × String))) (to? : Option Rat)
    (hfail : ∀ n, (env n).isOk = false) :
    ((get_request_html cfg env ua hd k url m ts? 1 header? data? to?).2.2).length
      = cfg.max_retry_times + 1 := by
  rw [(get_request_html_run cfg env ua hd k url m ts? header? data? to? hfail).2]
  simp [attList_length]

theorem attempt_count_eq_retry_bound_succ_witness :
    ((get_request_html ⟨3, 1, 20⟩ (fun _ => .exn) (fun n => toString n)
        ⟨⟨"ua0", []⟩, []⟩ 0 "https://example.com/" .get none 1 none none none).2.2).length
      = 3 + 1 :=
  attempt_count_eq_retry_bound_succ ⟨3, 1, 20⟩ (fun _ => .exn) (fun n => toString n)
    ⟨⟨"ua0", []⟩, []⟩ 0 "https://example.com/" .get none none none none
    (fun _ => rfl)

/-- Claim C5: when every attempt fails, the fetcher returns (rather than
raising — the embedding is a total function and the source catches
`Timeout`/`RequestException` and checks the status code) an `html_dict`
with `status = False` and an absent (`None`) body, leaving the crawl to
continue. -/
theorem exhausted_fetch_reports_failure (cfg : ExtractorConfig)
    (env : Nat → ReqOutcome) (ua : Nat → String) (hd : MutState) (k : Nat)
    (url : String) (m : Method) (ts? : Option Rat) (header? : Option Header)
    (data? : Option (List (String × String))) (to? : Option Rat)
    (hfail : ∀ n, (env n).isOk = false) :
    (get_request_html cfg env ua hd k url m ts? 1 header? data? to?).1.status = false ∧
    (get_request_html cfg env ua hd k url m ts? 1 header? data? to?).1.text = none := by
  rw [(get_request_html_run cfg env ua hd k url m ts? header? data? to? hfail).1]
  exact ⟨rfl, rfl⟩

theorem exhausted_fetch_reports_failure_witness :
    (get_request_html ⟨3, 1, 20⟩ (fun _ => .status 500) (fun n => toString n)
        ⟨⟨"ua0", []⟩, []⟩ 0 "https://example.com/" .get none 1 none none none).1.status
      = false ∧
    (get_request_html ⟨3, 1, 20⟩ (fun _ => .status 500) (fun n => toString n)
        ⟨⟨"ua0", []⟩, []⟩ 0 "https://example.com/" .get none 1 none none none).1.text
      = none :=
  exhausted_fetch_reports_failure ⟨3, 1, 20⟩ (fun _ => .status 500) (fun n => toString n)
    ⟨⟨"ua0", []⟩, []⟩ 0 "https://example.com/" .get none none none none
    (fun _ => rfl)

/-- Claim C6, counterexample: with configured base delay
`time_sleep = 2`, the delay between the first and second attempts is
already `2 * 1.5 = 3`, not the base delay `2` the claim's "starting from
the configured base delay" states. -/
theorem first_inter_attempt_delay_is_not_base :
    (interAttemptDelays ((get_request_html ⟨3, 2, 20⟩ (fun _ => .status 500)
        (fun n => toString n) ⟨⟨"ua0", []⟩, []⟩ 0 "https://example.com/" .get
        none 1 none none none).2.2)).head? = some 3 ∧ (3 : Rat) ≠ 2 := by
  constructor
  · simp [get_request_html, interAttemptDelays]
    norm_num
  · norm_num

theorem attList_getElem (url : String) (m : Method) (restH d : List (String × String))
    (tOut : Rat) (ua : Nat → String) (n k : Nat) (s : Rat) (i : Nat) (hi : i < n) :
    (attList url m restH d tOut ua k s n)[i]? =
      some ⟨url, m, ⟨ua (k + i), restH⟩, d, tOut, s * (3 / 2) ^ i⟩ := by
  have hlen : i < (attList url m restH d tOut ua k s n).length := by
    rw [attList_length]; exact hi
  rw [List.getElem?_eq_getElem hlen]
  have := attList_get url m restH d tOut ua n k s i hlen
  rw [List.get_eq_getElem] at this
  rw [this]

/-- Claim C6, amended: on an all-failing fetch with positive configured
base delay, the inter-attempt delays number exactly `max_retry_times`,
the `i`-th being `time_sleep * 1.5^(i+1)`; each is exactly 1.5 times
the previous one and the sequence is strictly increasing — it starts at
`1.5 *` the base delay (the base delay itself is slept before the
first attempt). -/
theorem inter_attempt_delay_sequence (cfg : ExtractorConfig)
    (env : Nat → ReqOutcome) (ua : Nat → String) (hd : MutState) (k : Nat)
    (url : String) (m : Method) (header? : Option Header)
    (data? : Option (List (String × String))) (to? : Option Rat)
    (ds : List Rat)
    (hds : ds = interAttemptDelays
      ((get_request_html cfg env ua hd k url m none 1 header? data? to?).2.2))
    (hfail : ∀ n, (env n).isOk = false) (hpos : 0 < cfg.time_sleep) :
    ds.length = cfg.max_retry_times ∧
    (∀ i : Nat, i < cfg.max_retry_times →
      ds[i]? = some (cfg.time_sleep * (3 / 2) ^ (i + 1))) ∧
    (∀ i : Nat, i + 1 < cfg.max_retry_times →
      ∃ a b : Rat, ds[i]? = some a ∧ ds[i + 1]? = some b ∧
        b = (3 / 2) * a ∧ a < b) := by
  have hrun := (get_request_html_run cfg env ua hd k url m none header? data? to? hfail).2
  have hds' : ds = (attList url m (firstHeader ua hd k header?).rest
      (data?.getD hd.data) cfg.time_out ua (k + 1)
      (cfg.time_sleep * (3 / 2)) cfg.max_retry_times).map (·.sleep_before) := by
    rw [hds, interAttemptDelays, hrun]
    simp
  have hlen : ds.length = cfg.max_retry_times := by
    rw [hds']; simp [attList_length]
  have hget : ∀ i : Nat, i < cfg.max_retry_times →
      ds[i]? = some (cfg.time_sleep * (3 / 2) ^ (i + 1)) := by
    intro i hi
    rw [hds', List.getElem?_map,
      attList_getElem url m (firstHeader ua hd k header?).rest
        (data?.getD hd.data) cfg.time_out ua cfg.max_retry_times (k + 1)
        (cfg.time_sleep * (3 / 2)) i hi]
    simp only [Option.map_some']
    congr 1
    ring
  refine ⟨hlen, hget, ?_⟩
  intro i hi
  refine ⟨cfg.time_sleep * (3 / 2) ^ (i + 1), cfg.time_sleep * (3 / 2) ^ (i + 2),
    hget i (by omega), hget (i + 1) (by omega), by ring, ?_⟩
  have hp : (0 : Rat) < cfg.time_sleep * (3 / 2) ^ (i + 1) :=
    mul_pos hpos (pow_pos (by norm_num) _)
  calc cfg.time_sleep * (3 / 2) ^ (i + 1)
      < (3 / 2) * (cfg.time_sleep * (3 / 2) ^ (i + 1)) := by linarith
    _ = cfg.time_sleep * (3 / 2) ^ (i + 2) := by ring

theorem inter_attempt_delay_sequence_witness :
    ((interAttemptDelays ((get_request_html ⟨3, 2, 20⟩ (fun _ => .status 500)
        (fun n => toString n) ⟨⟨"ua0", []⟩, []⟩ 0 "https://example.com/" .get
        none 1 none none none).2.2)).length = 3) :=
  (inter_attempt_delay_sequence ⟨3, 2, 20⟩ (fun _ => .status 500) (fun n => toString n)
    ⟨⟨"ua0", []⟩, []⟩ 0 "https://example.com/" .get none none none _ rfl
    (fun _ => rfl) (by norm_num)).1

/-- Claim C10, counterexample: the caller-supplied `data` argument is
not discarded on retries: the first call stores it into `self.data`, so
the second attempt posts the caller's data `[("k","v")]`, not the
instance default `[("d0","v0")]`. -/
theorem retry_reuses_caller_data :
    (((get_request_html ⟨3, 1, 20⟩ (fun _ => .status 500) (fun n => toString n)
        ⟨⟨"default-ua", [("Accept", "x")]⟩, [("d0", "v0")]⟩ 0
        "https://example.com/" .post none 1
        (some ⟨"caller-ua", [("X-Auth", "t")]⟩) (some [("k", "v")])
        (some 5)).2.2).map (fun a => a.data)).getD 1 []
      = [("k", "v")] ∧
    [(("k" : String), ("v" : String))] ≠ [("d0", "v0")] := by
  constructor
  · simp [get_request_html]
  · decide

/-- Claim C10, amended: on an all-failing fetch with caller-supplied
`header`, `data` and `time_out`, the retry calls forward only the url,
the method, the 1.5-scaled delay and the incremented retry counter; the
caller's `time_out` therefore applies only to the first attempt and
retries use the instance default — but the caller's `header` and `data`
persist through the instance mutation, so every retry still uses the
caller's data and the caller's header fields with only the User-Agent
re-randomized (`attList` carries `H.rest` and `D`, with
`time_out = cfg.time_out`). -/
theorem retry_forwards_only_url_method_delay (cfg : ExtractorConfig)
    (env : Nat → ReqOutcome) (ua : Nat → String) (hd : MutState) (k : Nat)
    (url : String) (m : Method) (H : Header) (D : List (String × String))
    (T : Rat) (hfail : ∀ n, (env n).isOk = false) :
    (get_request_html cfg env ua hd k url m none 1 (some H) (some D) (some T)).2.2 =
      ⟨url, m, H, D, T, cfg.time_sleep⟩ ::
        attList url m H.rest D cfg.time_out ua (k + 1)
          (cfg.time_sleep * (3 / 2)) cfg.max_retry_times := by
  have := (get_request_html_run cfg env ua hd k url m none (some H) (some D)
    (some T) hfail).2
  simpa [firstHeader] using this

theorem retry_forwards_only_url_method_delay_witness :
    (get_request_html ⟨3, 1, 20⟩ (fun _ => .status 500) (fun n => toString n)
        ⟨⟨"default-ua", [("Accept", "x")]⟩, [("d0", "v0")]⟩ 0
        "https://example.com/" .post none 1
        (some ⟨"caller-ua", [("X-Auth", "t")]⟩) (some [("k", "v")])
        (some 5)).2.2 =
      ⟨"https://example.com/", .post, ⟨"caller-ua", [("X-Auth", "t")]⟩,
        [("k", "v")], 5, 1⟩ ::
        attList "https://example.com/" .post [("X-Auth", "t")] [("k", "v")]
          20 (fun n => toString n) 1 (1 * (3 / 2)) 3 :=
  retry_forwards_only_url_method_delay ⟨3, 1, 20⟩ (fun _ => .status 500)
    (fun n => toString n) ⟨⟨"default-ua", [("Accept", "x")]⟩, [("d0", "v0")]⟩ 0
    "https://example.com/" .post ⟨"caller-ua", [("X-Auth", "t")]⟩ [("k", "v")] 5
    (fun _ => rfl)

/-! ## Claims about dedup, the visited set, and the rendered fetch (C1, C4, C9) -/

theorem extract_code_blocks_countP (hashFn : String → Int) (h : Int) :
    ∀ (blocks : List String) (seen : List Int),
    (extract_code_blocks hashFn blocks seen).countP (fun t => hashFn t == h)
      ≤ (if h ∈ seen then 0 else 1) := by
  intro blocks
  induction blocks with
  | nil => intro seen; simp [extract_code_blocks]
  | cons t rest ih =>
      intro seen
      rw [extract_code_blocks]
      by_cases hshort : (pyStrip t).length < 15
      · rw [if_pos hshort]; exact ih seen
      · rw [if_neg hshort]
        by_cases hseen : hashFn t ∈ seen
        · rw [if_pos (by simpa [List.contains, List.elem_eq_mem] using hseen)]
          exact ih seen
        · rw [if_neg (by simpa [List.contains, List.elem_eq_mem] using hseen)]
          rw [List.countP_cons]
          by_cases heq : hashFn t = h
          · have hseenh : h ∉ seen := heq ▸ hseen
            have hrec := ih (hashFn t :: seen)
            rw [if_pos (by simp [heq])] at hrec
            rw [heq] at hrec
            rw [heq]
            rw [if_neg hseenh]
            have hz : (extract_code_blocks hashFn rest (h :: seen)).countP
                (fun t => hashFn t == h) = 0 := Nat.le_zero.mp hrec
            simp [hz]
          · have hrec := ih (hashFn t :: seen)
            have hbeq : (hashFn t == h) = false := by simpa using heq
            simp only [hbeq, Bool.false_eq_true, if_false, Nat.add_zero]
            by_cases hs2 : h ∈ seen
            · rw [if_pos hs2]
              rw [if_pos (List.mem_cons_of_mem _ hs2)] at hrec
              exact hrec
            · rw [if_neg hs2]
              rw [if_neg (fun hmem => by
                rcases List.mem_cons.mp hmem with he | hs
                · exact heq he.symm
                · exact hs2 hs)] at hrec
              exact hrec

/-- Claim C1, amended: within one page — one call of
`extract_code_blocks`, which creates its `processed_content` set afresh
— at most one artifact is persisted per content fingerprint. Across
pages of the same run no such bound holds (see the counterexample). -/
theorem code_blocks_dedup_within_page (hashFn : String → Int)
    (blocks : List String) (h : Int) :
    (extract_code_blocks hashFn blocks []).countP (fun t => hashFn t == h) ≤ 1 := by
  simpa using extract_code_blocks_countP hashFn h blocks []

/-- Claim C1, counterexample: two pages of the same crawl run each
containing the same code block yield two persisted artifacts with the
same fingerprint, because the dedup set is per page, not per run. -/
theorem code_block_duplicated_across_pages :
    crawlRunArtifacts (fun t => (t.length : Int))
        [["print(hello_world_example)"], ["print(hello_world_example)"]]
      = ["print(hello_world_example)", "print(hello_world_example)"] ∧
    ¬ ((["print(hello_world_example)", "print(hello_world_example)"] :
        List String).length ≤ 1) := by
  constructor
  · decide
  · decide

theorem atomicRun_inv : ∀ (sched : List Bool) (st : Bool × Pc × Pc),
    atomicInv st = true → atomicInv (atomicRun sched st) = true := by
  have pres : ∀ st : Bool × Pc × Pc, atomicInv st = true →
      (atomicInv ((stepAtomic st.1 st.2.1).2, (stepAtomic st.1 st.2.1).1, st.2.2) = true ∧
       atomicInv ((stepAtomic st.1 st.2.2).2, st.2.1, (stepAtomic st.1 st.2.2).1) = true) := by
    decide
  intro sched
  induction sched with
  | nil => intro st h; simpa [atomicRun] using h
  | cons w rest ih =>
      intro st h
      obtain ⟨mem, p1, p2⟩ := st
      rw [atomicRun]
      cases w
      · simp only [Bool.false_eq_true, if_false]
        exact ih _ (pres (mem, p1, p2) h).2
      · simp only [if_true]
        exact ih _ (pres (mem, p1, p2) h).1

/-- Claim C4: the membership check of `process_url` (line 51) runs
outside the lock that guards the insertion (lines 55-56), so the
interleaving check1-check2-insert1-insert2 lets two workers both pass
the check and both process the same URL — the code violates the claimed
atomic check-and-insert. Under the spec's atomic check-and-insert
(`stepAtomic`, modelled from the spec's words) no schedule lets both
workers process the URL. -/
theorem visited_check_insert_race :
    (raceRun [true, false, true, false] (false, .start, .start)
      = (true, .finished, .finished)) ∧
    (∀ sched : List Bool,
      (((atomicRun sched (false, .start, .start)).2.1 == Pc.finished) &&
        ((atomicRun sched (false, .start, .start)).2.2 == Pc.finished)) = false) := by
  constructor
  · decide
  · intro sched
    have h := atomicRun_inv sched (false, .start, .start) (by decide)
    revert h
    unfold atomicInv
    cases (atomicRun sched (false, Pc.start, Pc.start)).2.1 == Pc.finished <;>
      cases (atomicRun sched (false, Pc.start, Pc.start)).2.2 == Pc.finished <;>
      simp

theorem selenium_quit_aux (cfg : ExtractorConfig) (env : Nat → SelOutcome)
    (url : String) :
    ∀ (f rt : Nat), cfg.max_retry_times + 1 - rt = f →
    ∀ (k : Nat) (ts? : Option Rat),
    ((get_selenium_html cfg env k url ts? rt).2).all (fun p => decide (1 ≤ p.2))
      = true := by
  intro f
  induction f with
  | zero =>
      intro rt hf k ts?
      have hgt : ¬ (rt ≤ cfg.max_retry_times) := by omega
      rw [get_selenium_html]
      rcases env k with _ | _ | ⟨u, b⟩ <;> simp [hgt]
  | succ n ih =>
      intro rt hf k ts?
      have hle : rt ≤ cfg.max_retry_times := by omega
      rw [get_selenium_html]
      rcases henv : env k with _ | _ | ⟨u, b⟩ <;>
        simp [hle, henv, ih (rt + 1) (by omega) (k + 1)]

/-- Claim C9: in every run of `get_selenium_html`, every successfully
created driver is quit at least once on its exit path (success,
render-exception with retries left — where it is even quit twice: once
in the `except` cleanup and once in `finally` — render-exception after
exhaustion, and any path reaching `finally`); no created driver is left
open. -/
theorem selenium_driver_always_released (cfg : ExtractorConfig)
    (env : Nat → SelOutcome) (k : Nat) (url : String) (ts? : Option Rat)
    (rt : Nat) :
    ((get_selenium_html cfg env k url ts? rt).2).all (fun p => decide (1 ≤ p.2))
      = true :=
  selenium_quit_aux cfg env url (cfg.max_retry_times + 1 - rt) rt rfl k ts?

/-! ## Claims about the frontier (C3) -/

theorem discoveredLinks_scope (domainPre : String) (processed : List String)
    (url : String) (depth max_depth : Nat) (hrefs : List String) :
    ∀ e ∈ discoveredLinks domainPre processed url depth max_depth hrefs,
      pyStartsWith e.1 domainPre = true := by
  intro e he
  unfold discoveredLinks at he
  split at he
  · rcases List.mem_filterMap.mp he with ⟨href, _, hf⟩
    simp only at hf
    split at hf
    · exact absurd hf (by simp)
    · split at hf
      · rename_i hcond
        rcases hf
        exact ((Bool.and_eq_true _ _).mp hcond).1
      · exact absurd hf (by simp)
  · simp at he

theorem process_url_admitted_scope (pages : String → List String)
    (ok : String → Bool) (domainPre : String) (max_depth : Nat)
    (st : CrawlState) (url : String) (depth : Nat) :
    ∀ e ∈ (process_url pages ok domainPre max_depth st url depth).admitted,
      e ∈ st.admitted ∨ pyStartsWith e.1 domainPre = true := by
  intro e he
  unfold process_url at he
  split at he
  · exact Or.inl he
  · split at he
    · simp only at he
      rcases List.mem_append.mp he with h | h
      · exact Or.inl h
      · exact Or.inr (discoveredLinks_scope _ _ _ _ _ _ e h)
    · exact Or.inl he

theorem crawlLoop_admitted_scope (pages : String → List String)
    (ok : String → Bool) (domainPre : String) (max_depth : Nat) :
    ∀ (fuel : Nat) (st : CrawlState),
    ∀ e ∈ (crawlLoop pages ok domainPre max_depth fuel st).admitted,
      e ∈ st.admitted ∨ pyStartsWith e.1 domainPre = true := by
  intro fuel
  induction fuel with
  | zero => intro st e he; exact Or.inl he
  | succ n ih =>
      intro st e he
      rw [crawlLoop] at he
      rcases hq : st.queue with _ | ⟨⟨u, d⟩, rest⟩
      · rw [hq] at he
        exact Or.inl he
      · rw [hq] at he
        rcases ih _ e he with h | h
        · rcases process_url_admitted_scope pages ok domainPre max_depth
            { st with queue := rest } u d e h with h' | h'
          · exact Or.inl h'
          · exact Or.inr h'
        · exact Or.inr h

theorem crawl_admitted_scope (pages : String → List String) (ok : String → Bool)
    (start_url : String) (max_depth fuel : Nat) :
    ∀ e ∈ (crawl pages ok start_url max_depth fuel).admitted,
      e = (start_url, 1) ∨
      pyStartsWith e.1 (split_host_url start_url) = true := by
  intro e he
  unfold crawl at he
  rcases crawlLoop_admitted_scope pages ok (split_host_url start_url) max_depth
      fuel _ e he with h | h
  · rcases process_url_admitted_scope pages ok (split_host_url start_url)
      max_depth _ start_url 1 e h with h' | h'
    · exact Or.inl (by simpa using h')
    · exact Or.inr h'
  · exact Or.inr h

/-- Claim C3, counterexample: in the scenario — seed
`https://example.com/` whose page holds two in-domain links and one
external link, `max_depth = 1` — the frontier admits only the seed: the
seed enters at depth 1 and `process_url` follows links only when
`depth < max_depth`, so `1 < 1` fails and the in-domain link
`https://example.com/a` is never admitted, contrary to the claim. -/
theorem seed_links_blocked_at_max_depth_one :
    (crawl (fun u => if u = "https://example.com/" then
        ["https://example.com/a", "https://example.com/b", "https://other.com/c"]
      else []) (fun _ => true) "https://example.com/" 1 10).admitted
      = [("https://example.com/", 1)] ∧
    (("https://example.com/a", 2) : String × Nat) ∉
      (crawl (fun u => if u = "https://example.com/" then
        ["https://example.com/a", "https://example.com/b", "https://other.com/c"]
      else []) (fun _ => true) "https://example.com/" 1 10).admitted := by
  constructor
  · decide
  · decide

/-- Claim C3, amended: with `max_depth = 1` only the seed is admitted;
the seed's two in-domain links are admitted (at depth 2 = depth of the
seed + 1) once `max_depth ≥ 2`, and the external link is never admitted
— in general every admitted entry is the seed at depth 1 or has a URL
starting with the domain-scope prefix of the seed. -/
theorem seed_depth_admission :
    ((crawl (fun u => if u = "https://example.com/" then
        ["https://example.com/a", "https://example.com/b", "https://other.com/c"]
      else []) (fun _ => true) "https://example.com/" 1 10).admitted
      = [("https://example.com/", 1)]) ∧
    ((crawl (fun u => if u = "https://example.com/" then
        ["https://example.com/a", "https://example.com/b", "https://other.com/c"]
      else []) (fun _ => true) "https://example.com/" 2 10).admitted
      = [("https://example.com/", 1), ("https://example.com/a", 2),
         ("https://example.com/b", 2)]) ∧
    (∀ (pages : String → List String) (ok : String → Bool)
       (start_url : String) (max_depth fuel : Nat) (e : String × Nat),
       e ∈ (crawl pages ok start_url max_depth fuel).admitted →
       e = (start_url, 1) ∨
       pyStartsWith e.1 (split_host_url start_url) = true) := by
  refine ⟨by decide, by decide, ?_⟩
  intro pages ok start_url max_depth fuel e he
  exact crawl_admitted_scope pages ok start_url max_depth fuel e he

theorem seed_depth_admission_witness :
    ((("https://example.com/a", 2) : String × Nat) = ("https://example.com/", 1) ∨
      pyStartsWith "https://example.com/a"
        (split_host_url "https://example.com/") = true) :=
  seed_depth_admission.2.2 (fun u => if u = "https://example.com/" then
      ["https://example.com/a", "https://example.com/b", "https://other.com/c"]
    else []) (fun _ => true) "https://example.com/" 2 10
    ("https://example.com/a", 2) (by decide)

/-! ## Claims about language detection and code formatting (C7, C8) -/

/-- Claim C7, counterexample: class tokens are checked one token at a
time, each token running the explicit-prefix, embedded-substring and
known-language checks before the next token is looked at; so a node
whose class list is `["highlight-python", "language-js"]` is classified
`python` by the known-language substring in the first token even though
the second token is an explicit `language-js` — the explicit token is
not consulted before every known-language substring, contrary to the
claim. -/
theorem substring_token_overrides_explicit_token :
    detect_language noPatterns
        ⟨["highlight-python", "language-js"], [], ""⟩ = "python" ∧
    clsCheck "language-js" = some "js" ∧
    ("python" : String) ≠ "js" := by
  refine ⟨by decide, by decide, by decide⟩

theorem detectFromContent_fallback (P : ContentPatterns) (t : String)
    (h : anyPattern P t = false) : detectFromContent P t = "text" := by
  unfold anyPattern at h
  simp only [Bool.or_eq_false_iff] at h
  obtain ⟨⟨⟨⟨⟨⟨⟨⟨⟨⟨⟨⟨⟨h1, h2⟩, h3⟩, h4⟩, h5⟩, h6⟩, h7⟩, h8⟩, h9⟩, h10⟩, h11⟩, h12⟩, h13⟩, h14⟩ := h
  unfold detectFromContent
  simp [h1, h2, h3, h4, h5, h6, h7, h8, h9, h10, h11, h12, h13, h14]

/-- Claim C7, amended: rules are applied per element (node first, then
parent) and per class token in list order, the first hit winning; within
a single token the explicit `language-` prefix check precedes the
embedded-substring and known-language checks; the content cascade runs
only when no class token of node or parent yields a language; and when
additionally no content pattern fires the result is the plain-text label
`"text"` (the function is total — never an error). -/
theorem detect_language_priority :
    (∀ (P : ContentPatterns) (e : CodeElem),
      (∀ cls ∈ e.classes, clsCheck cls = none) →
      (∀ cls ∈ e.parentClasses, clsCheck cls = none) →
      anyPattern P e.text = false →
      detect_language P e = "text") ∧
    (∀ (P : ContentPatterns) (e : CodeElem) (l : String),
      e.classes.findSome? clsCheck = some l → detect_language P e = l) ∧
    (∀ (P : ContentPatterns) (e : CodeElem) (l : String),
      e.classes.findSome? clsCheck = none →
      e.parentClasses.findSome? clsCheck = some l → detect_language P e = l) ∧
    (∀ cls : String, pyStartsWith cls "language-" = true →
      clsCheck cls = some ((pySplit cls "-").getD 1 "")) := by
  refine ⟨?_, ?_, ?_, ?_⟩
  · intro P e hcls hpar hpat
    have h1 : e.classes.findSome? clsCheck = none := by
      rw [List.findSome?_eq_none_iff]
      intro x hx; exact hcls x hx
    have h2 : e.parentClasses.findSome? clsCheck = none := by
      rw [List.findSome?_eq_none_iff]
      intro x hx; exact hpar x hx
    unfold detect_language
    rw [h1, h2]
    exact detectFromContent_fallback P e.text hpat
  · intro P e l h
    unfold detect_language
    rw [h]
  · intro P e l h1 h2
    unfold detect_language
    rw [h1, h2]
  · intro cls h
    unfold clsCheck
    rw [if_pos h]

theorem detect_language_priority_witness :
    detect_language noPatterns ⟨["zzz"], [], "hello"⟩ = "text" :=
  detect_language_priority.1 noPatterns ⟨["zzz"], [], "hello"⟩
    (by decide) (by decide) (by decide)

/-- Claim C8, counterexample: a `pre` block whose extracted text is the
single indented line `"    return 1"` is returned with its indentation
intact — `_preserve_code_formatting` dedents only when splitting on
line breaks yields more than one line — while the claim says the
minimum leading-whitespace width (4) is stripped from every block
including single-line ones. -/
theorem single_line_block_keeps_indent :
    preserve_code_formatting (fun s => s) "    return 1" = "    return 1" ∧
    ("    return 1" : String) ≠ "return 1" := by
  refine ⟨by decide, by decide⟩

theorem min_indent_le (lines : List String) :
    ∀ (acc : Option Nat) (m : Nat),
    lines.foldl
      (fun acc l =>
        if pyStrip l != "" then
          some (match acc with
            | none => indentOf l
            | some m => min m (indentOf l))
        else acc) acc = some m →
    (∀ a, acc = some a → m ≤ a) ∧
    (∀ l ∈ lines, pyStrip l ≠ "" → m ≤ indentOf l) := by
  induction lines with
  | nil =>
      intro acc m h
      simp only [List.foldl_nil] at h
      refine ⟨?_, ?_⟩
      · intro a ha; rw [ha] at h; cases h; exact Nat.le_refl _
      · intro l hl; simp at hl
  | cons l ls ih =>
      intro acc m h
      simp only [List.foldl_cons] at h
      by_cases hb : pyStrip l != ""
      · rw [if_pos hb] at h
        have := ih _ m h
        rcases this with ⟨hacc, hmem⟩
        constructor
        · intro a ha
          rcases acc with _ | a'
          · cases ha
          · cases ha
            have := hacc (min a (indentOf l)) rfl
            exact le_trans this (Nat.min_le_left _ _)
        · intro l' hl' hb'
          rcases List.mem_cons.mp hl' with rfl | hls
          · rcases acc with _ | a'
            · exact hacc (indentOf l') rfl
            · exact le_trans (hacc (min a' (indentOf l')) rfl) (Nat.min_le_right _ _)
          · exact hmem l' hls hb'
      · rw [if_neg hb] at h
        have := ih acc m h
        rcases this with ⟨hacc, hmem⟩
        constructor
        · exact hacc
        · intro l' hl' hb'
          rcases List.mem_cons.mp hl' with rfl | hls
          · exact absurd (by simpa using hb') hb
          · exact hmem l' hls hb'

theorem min_indent_attained (lines : List String) :
    ∀ (acc : Option Nat) (m : Nat),
    lines.foldl
      (fun acc l =>
        if pyStrip l != "" then
          some (match acc with
            | none => indentOf l
            | some m => min m (indentOf l))
        else acc) acc = some m →
    acc = some m ∨ ∃ l ∈ lines, pyStrip l ≠ "" ∧ indentOf l = m := by
  induction lines with
  | nil =>
      intro acc m h
      simp only [List.foldl_nil] at h
      exact Or.inl h
  | cons l ls ih =>
      intro acc m h
      simp only [List.foldl_cons] at h
      by_cases hb : pyStrip l != ""
      · rw [if_pos hb] at h
        rcases ih _ m h with hl | ⟨l', hl', hb', he'⟩
        · rcases acc with _ | a'
          · cases hl
            exact Or.inr ⟨l, List.mem_cons_self _ _, by simpa using hb, rfl⟩
          · cases hl
            rcases le_total a' (indentOf l) with hle | hle
            · exact Or.inl (congrArg some (min_eq_left hle).symm)
            · exact Or.inr ⟨l, List.mem_cons_self _ _, by simpa using hb,
                (min_eq_right hle).symm⟩
        · exact Or.inr ⟨l', List.mem_cons_of_mem _ hl', hb', he'⟩
      · rw [if_neg hb] at h
        rcases ih acc m h with hl | ⟨l', hl', hb', he'⟩
        · exact Or.inl hl
        · exact Or.inr ⟨l', List.mem_cons_of_mem _ hl', hb', he'⟩

/-- Claim C8, amended: the `pre` branch preserves explicit line breaks
and decodes entities (`dedentPre` runs on the entity-decoded text), and
the common-indent removal applies exactly when the content splits into
more than one line: a single-line block is returned unchanged, and on a
multi-line block every non-blank line is stripped of exactly
`min_indent` characters (blank lines untouched, per `fixedLines`),
where `min_indent` is a lower bound on every non-blank line's
indentation and is attained by some non-blank line. -/
theorem dedent_only_multiline :
    (∀ content : String, (pySplit content "\n").length ≤ 1 →
      dedentPre content = content) ∧
    (∀ (content : String) (m : Nat),
      1 < (pySplit content "\n").length →
      min_indent (pySplit content "\n") = some m →
      dedentPre content = joinNL (fixedLines (pySplit content "\n") m) ∧
      (∀ l ∈ pySplit content "\n", pyStrip l ≠ "" → m ≤ indentOf l) ∧
      (∃ l ∈ pySplit content "\n", pyStrip l ≠ "" ∧ indentOf l = m)) := by
  constructor
  · intro content hle
    unfold dedentPre
    rw [if_neg (by omega)]
  · intro content m hgt hm
    refine ⟨?_, ?_, ?_⟩
    · unfold dedentPre
      rw [if_pos hgt, hm]
    · intro l hl hb
      exact (min_indent_le (pySplit content "\n") none m hm).2 l hl hb
    · rcases min_indent_attained (pySplit content "\n") none m hm with h | h
      · cases h
      · exact h

theorem dedent_only_multiline_witness :
    (dedentPre "  a\n    b\n\n  c"
      = joinNL (fixedLines (pySplit "  a\n    b\n\n  c" "\n") 2)) ∧
    (∃ l ∈ pySplit "  a\n    b\n\n  c" "\n", pyStrip l ≠ "" ∧ indentOf l = 2) :=
  ⟨((dedent_only_multiline.2 "  a\n    b\n\n  c" 2 (by decide) (by decide)).1),
   ((dedent_only_multiline.2 "  a\n    b\n\n  c" 2 (by decide) (by decide)).2.2)⟩

end Hub
